import Mathlib

/-!
# CloudNav — formal model of the bookmark codec, backup transport and state handlers

This file shallowly embeds the deterministic logic of the CloudNav repository:

* `src/services/exportService.ts` — `generateBookmarkHtml` (Netscape bookmark
  HTML export) together with its inner `escapeHtml` helper;
* `src/services/webDavService.ts` — `checkWebDavConnection`, `uploadBackup`,
  `downloadBackup` (WebDAV backup transport);
* `App.tsx` — `syncToCloud`, `handleDeleteCategory`, the import merge of
  `handleImport`.

Strings are modelled as `List Char` (the `String.data` view) so that the
character-level replacement and parsing functions can be reasoned about by
structural induction.  JavaScript numbers that hold epoch timestamps are
modelled as `Nat`; `Math.floor (x / 1000)` on such values is `Nat` division.
`fetch` is modelled by an explicit outcome value: either a settled response
(status code plus body) or a rejected promise (network error); a `try/catch`
around a single `fetch` becomes a total function of that outcome.
-/

/-- `LinkItem` from `src/types.ts`.  Optional fields (`icon?`, `description?`)
become `Option`; `pinned?: boolean` is collapsed to `Bool` (absent = `false`,
which is how the code consumes it). -/
structure LinkItem where
  id : String
  title : String
  url : String
  icon : Option String
  description : Option String
  categoryId : String
  createdAt : Nat
  pinned : Bool
deriving DecidableEq, Repr

/-- `Category` from `src/types.ts`. -/
structure Category where
  id : String
  name : String
  icon : String
  password : Option String
deriving DecidableEq, Repr, Inhabited

/-! ## Characters used throughout -/

/-- The newline character. -/
def nlC : Char := Char.ofNat 10

/-- The apostrophe character (U+0027). -/
def aposC : Char := Char.ofNat 39

/-! ## `escapeHtml` (exportService.ts lines 20–27)

The source applies five global single-character regex replacements in
sequence: `&`, `<`, `>`, `"`, `'`.  A global replacement of one character by
a string is `replaceAllChar`. -/

/-- Replace every occurrence of the character `c` in `s` by the string `r`
(the semantics of JavaScript `s.replace(/c/g, r)` for a single-character
pattern). -/
def replaceAllChar (s : List Char) (c : Char) (r : List Char) : List Char :=
  match s with
  | [] => []
  | x :: xs => (if x = c then r else [x]) ++ replaceAllChar xs c r

/-- `escapeHtml` from exportService.ts: the five sequential replacements, in
source order. -/
def escapeHtmlL (s : List Char) : List Char :=
  replaceAllChar
    (replaceAllChar
      (replaceAllChar
        (replaceAllChar
          (replaceAllChar s '&' ("&amp;".data))
          '<' ("&lt;".data))
        '>' ("&gt;".data))
      '"' ("&quot;".data))
    aposC ("&#039;".data)

/-- `escapeHtml` at `String` level. -/
def escapeHtml (s : String) : String := ⟨escapeHtmlL s.data⟩

/-- The character-wise escaping map the spec describes: each of the five
special characters goes to its HTML entity, every other character stays
itself. -/
def escChar (c : Char) : List Char :=
  if c = '&' then "&amp;".data
  else if c = '<' then "&lt;".data
  else if c = '>' then "&gt;".data
  else if c = '"' then "&quot;".data
  else if c = aposC then "&#039;".data
  else [c]

theorem replaceAllChar_append (a b : List Char) (c : Char) (r : List Char) :
    replaceAllChar (a ++ b) c r = replaceAllChar a c r ++ replaceAllChar b c r := by
  induction a with
  | nil => simp [replaceAllChar]
  | cons x xs ih => simp [replaceAllChar, ih]

theorem escapeHtmlL_append (a b : List Char) :
    escapeHtmlL (a ++ b) = escapeHtmlL a ++ escapeHtmlL b := by
  simp [escapeHtmlL, replaceAllChar_append]

theorem escapeHtmlL_nil : escapeHtmlL [] = [] := by decide

/-- On a single character the five sequential replacements compute exactly
the character-wise entity map. -/
theorem escapeHtmlL_single (c : Char) : escapeHtmlL [c] = escChar c := by
  by_cases h1 : c = '&'
  · subst h1; decide
  · by_cases h2 : c = '<'
    · subst h2; decide
    · by_cases h3 : c = '>'
      · subst h3; decide
      · by_cases h4 : c = '"'
        · subst h4; decide
        · by_cases h5 : c = aposC
          · subst h5; decide
          · simp [escapeHtmlL, replaceAllChar, escChar, h1, h2, h3, h4, h5]

/-- `escapeHtml` is exactly the character-wise entity substitution: the
sequential replacements never double-escape an earlier replacement's
output. -/
theorem escapeHtmlL_eq_join_map (s : List Char) :
    escapeHtmlL s = (s.map escChar).flatten := by
  induction s with
  | nil => simpa using escapeHtmlL_nil
  | cons c cs ih =>
    have h : escapeHtmlL (c :: cs) = escapeHtmlL [c] ++ escapeHtmlL cs := by
      simpa using escapeHtmlL_append [c] cs
    rw [h, escapeHtmlL_single, ih]
    simp

/-! ## Entity decoding (parser side)

`parseBookmarks` (src/services/bookmarkParser.ts) is not part of the
repository snapshot; the parser below is modelled from the spec (§4.2) and
inverts the escaping above. -/

/-- Decode the five HTML entities produced by `escapeHtml`; any other
character is copied unchanged. -/
def unescapeHtml (s : List Char) : List Char :=
  match s with
  | [] => []
  | c :: rest =>
    if c = '&' ∧ rest.take 4 = ['a', 'm', 'p', ';'] then
      '&' :: unescapeHtml (rest.drop 4)
    else if c = '&' ∧ rest.take 3 = ['l', 't', ';'] then
      '<' :: unescapeHtml (rest.drop 3)
    else if c = '&' ∧ rest.take 3 = ['g', 't', ';'] then
      '>' :: unescapeHtml (rest.drop 3)
    else if c = '&' ∧ rest.take 5 = ['q', 'u', 'o', 't', ';'] then
      '"' :: unescapeHtml (rest.drop 5)
    else if c = '&' ∧ rest.take 5 = ['#', '0', '3', '9', ';'] then
      aposC :: unescapeHtml (rest.drop 5)
    else
      c :: unescapeHtml rest
termination_by s.length
decreasing_by
  all_goals simp [List.length_drop]
  all_goals omega

theorem unescapeHtml_nil : unescapeHtml [] = [] := by
  simp [unescapeHtml]

/-- Decoding consumes one escaped character at a time. -/
theorem unescapeHtml_escChar (c : Char) (rest : List Char) :
    unescapeHtml (escChar c ++ rest) = c :: unescapeHtml rest := by
  by_cases h1 : c = '&'
  · subst h1
    have he : escChar '&' = ['&', 'a', 'm', 'p', ';'] := by decide
    rw [he]
    simp [unescapeHtml]
  · by_cases h2 : c = '<'
    · subst h2
      have he : escChar '<' = ['&', 'l', 't', ';'] := by decide
      rw [he]
      simp [unescapeHtml]
    · by_cases h3 : c = '>'
      · subst h3
        have he : escChar '>' = ['&', 'g', 't', ';'] := by decide
        rw [he]
        simp [unescapeHtml]
      · by_cases h4 : c = '"'
        · subst h4
          have he : escChar '"' = ['&', 'q', 'u', 'o', 't', ';'] := by decide
          rw [he]
          simp [unescapeHtml]
        · by_cases h5 : c = aposC
          · subst h5
            have he : escChar aposC = ['&', '#', '0', '3', '9', ';'] := by decide
            rw [he]
            simp [unescapeHtml]
          · have he : escChar c = [c] := by
              simp [escChar, h1, h2, h3, h4, h5]
            rw [he]
            simp only [List.singleton_append]
            rw [unescapeHtml]
            simp [h1]

/-- The escape/unescape round trip: every escaped string decodes back to the
original literal string. -/
theorem unescapeHtml_escapeHtmlL (s : List Char) :
    unescapeHtml (escapeHtmlL s) = s := by
  induction s with
  | nil => simp [escapeHtmlL_nil, unescapeHtml_nil]
  | cons c cs ih =>
    have h : escapeHtmlL (c :: cs) = escChar c ++ escapeHtmlL cs := by
      have := escapeHtmlL_append [c] cs
      simpa [escapeHtmlL_single] using this
    rw [h, unescapeHtml_escChar, ih]

/-! ## Character classes of escaped output -/

/-- The characters that can appear in one of the five entity strings. -/
def entityChars : List Char :=
  ['&', 'a', 'm', 'p', ';', 'l', 't', 'g', 'q', 'u', 'o', '#', '0', '3', '9']

theorem mem_escChar (x c : Char) (h : x ∈ escChar c) :
    x ∈ entityChars ∨ (x = c ∧ c ≠ '&' ∧ c ≠ '<' ∧ c ≠ '>' ∧ c ≠ '"' ∧ c ≠ aposC) := by
  by_cases h1 : c = '&'
  · subst h1
    left
    have he : escChar '&' = ['&', 'a', 'm', 'p', ';'] := by decide
    rw [he] at h
    simp only [List.mem_cons, List.not_mem_nil, or_false] at h
    rcases h with rfl | rfl | rfl | rfl | rfl <;> decide
  · by_cases h2 : c = '<'
    · subst h2
      left
      have he : escChar '<' = ['&', 'l', 't', ';'] := by decide
      rw [he] at h
      simp only [List.mem_cons, List.not_mem_nil, or_false] at h
      rcases h with rfl | rfl | rfl | rfl <;> decide
    · by_cases h3 : c = '>'
      · subst h3
        left
        have he : escChar '>' = ['&', 'g', 't', ';'] := by decide
        rw [he] at h
        simp only [List.mem_cons, List.not_mem_nil, or_false] at h
        rcases h with rfl | rfl | rfl | rfl <;> decide
      · by_cases h4 : c = '"'
        · subst h4
          left
          have he : escChar '"' = ['&', 'q', 'u', 'o', 't', ';'] := by decide
          rw [he] at h
          simp only [List.mem_cons, List.not_mem_nil, or_false] at h
          rcases h with rfl | rfl | rfl | rfl | rfl | rfl <;> decide
        · by_cases h5 : c = aposC
          · subst h5
            left
            have he : escChar aposC = ['&', '#', '0', '3', '9', ';'] := by decide
            rw [he] at h
            simp only [List.mem_cons, List.not_mem_nil, or_false] at h
            rcases h with rfl | rfl | rfl | rfl | rfl | rfl <;> decide
          · right
            simp [escChar, h1, h2, h3, h4, h5] at h
            exact ⟨h, h1, h2, h3, h4, h5⟩

theorem mem_escapeHtmlL (x : Char) (s : List Char) (h : x ∈ escapeHtmlL s) :
    x ∈ entityChars ∨ (x ∈ s ∧ x ≠ '&' ∧ x ≠ '<' ∧ x ≠ '>' ∧ x ≠ '"' ∧ x ≠ aposC) := by
  rw [escapeHtmlL_eq_join_map] at h
  rw [List.mem_flatten] at h
  obtain ⟨l, hl, hx⟩ := h
  obtain ⟨c, hc, rfl⟩ := List.mem_map.mp hl
  rcases mem_escChar x c hx with h | ⟨rfl, hs⟩
  · exact Or.inl h
  · exact Or.inr ⟨hc, hs⟩

/-- The escaped output never contains a raw `<`. -/
theorem escapeHtmlL_no_lt (s : List Char) : '<' ∉ escapeHtmlL s := by
  intro h
  rcases mem_escapeHtmlL _ _ h with h | ⟨_, _, h2, _⟩
  · revert h; decide
  · exact h2 rfl

/-- The escaped output never contains a raw `>`. -/
theorem escapeHtmlL_no_gt (s : List Char) : '>' ∉ escapeHtmlL s := by
  intro h
  rcases mem_escapeHtmlL _ _ h with h | ⟨_, _, _, h3, _⟩
  · revert h; decide
  · exact h3 rfl

/-- The escaped output never contains a raw double quote. -/
theorem escapeHtmlL_no_quot (s : List Char) : '"' ∉ escapeHtmlL s := by
  intro h
  rcases mem_escapeHtmlL _ _ h with h | ⟨_, _, _, _, h4, _⟩
  · revert h; decide
  · exact h4 rfl

/-- Escaping introduces no newline. -/
theorem escapeHtmlL_no_nl (s : List Char) (hs : nlC ∉ s) : nlC ∉ escapeHtmlL s := by
  intro h
  rcases mem_escapeHtmlL _ _ h with h | ⟨h1, _⟩
  · revert h; decide
  · exact hs h1

/-! ## Decimal rendering of timestamps

The template interpolation `${now}` / `${date}` renders a natural number in
decimal. -/

/-- The decimal digit character for `n % 10`. -/
def digitChar (n : Nat) : Char := Char.ofNat (48 + n % 10)

/-- Decimal rendering with explicit fuel, so that the function reduces in
the kernel; `fuel` bounds the number of divisions by ten and `natDigits`
supplies `n` itself, which is always enough. -/
def natDigitsAux : Nat → Nat → List Char
  | 0, n => [digitChar n]
  | fuel + 1, n =>
    if n < 10 then [digitChar n]
    else natDigitsAux fuel (n / 10) ++ [digitChar n]

/-- Decimal rendering of a natural number (most significant digit first). -/
def natDigits (n : Nat) : List Char := natDigitsAux n n

theorem digitChar_isDigit (n : Nat) : (digitChar n).isDigit = true := by
  have h : n % 10 < 10 := Nat.mod_lt _ (by omega)
  unfold digitChar
  interval_cases h : n % 10 <;> decide

theorem natDigitsAux_isDigit (fuel n : Nat) :
    ∀ c ∈ natDigitsAux fuel n, c.isDigit = true := by
  induction fuel generalizing n with
  | zero =>
    intro c hc
    simp [natDigitsAux] at hc
    subst hc
    exact digitChar_isDigit n
  | succ fuel ih =>
    intro c hc
    by_cases h : n < 10
    · simp [natDigitsAux, h] at hc
      subst hc
      exact digitChar_isDigit n
    · simp [natDigitsAux, h] at hc
      rcases hc with hc | hc
      · exact ih (n / 10) c hc
      · subst hc
        exact digitChar_isDigit n

theorem natDigits_isDigit (n : Nat) : ∀ c ∈ natDigits n, c.isDigit = true :=
  natDigitsAux_isDigit n n

theorem natDigits_ne_nil (n : Nat) : natDigits n ≠ [] := by
  rw [natDigits]
  cases n with
  | zero => simp [natDigitsAux]
  | succ m =>
    by_cases h : m + 1 < 10 <;> simp [natDigitsAux, h]

/-- A decimal digit is none of the structurally significant characters. -/
theorem isDigit_ne (c : Char) (h : c.isDigit = true) :
    c ≠ nlC ∧ c ≠ '>' ∧ c ≠ '"' ∧ c ≠ '<' ∧ c ≠ ' ' := by
  refine ⟨?_, ?_, ?_, ?_, ?_⟩ <;> (intro hc; subst hc; revert h; decide)

/-! ## Scanning helpers used to reason about the parser -/

theorem dropWhile_append_ne_nil {α : Type} (p : α → Bool) (a b : List α)
    (h : a.dropWhile p ≠ []) :
    (a ++ b).dropWhile p = a.dropWhile p ++ b := by
  induction a with
  | nil => simp [List.dropWhile] at h
  | cons x xs ih =>
    by_cases hx : p x
    · have h2 : xs.dropWhile p ≠ [] := by
        rwa [List.dropWhile_cons, if_pos hx] at h
      simp only [List.cons_append, List.dropWhile_cons, if_pos hx]
      exact ih h2
    · simp only [List.cons_append, List.dropWhile_cons, if_neg hx]

theorem dropWhile_append_all {α : Type} (p : α → Bool) (a b : List α)
    (h : a.all p) :
    (a ++ b).dropWhile p = b.dropWhile p := by
  induction a with
  | nil => simp
  | cons x xs ih =>
    simp only [List.all_cons, Bool.and_eq_true] at h
    simp [List.dropWhile_cons, h.1, ih h.2]

theorem takeWhile_append_all {α : Type} (p : α → Bool) (a b : List α)
    (h : a.all p) :
    (a ++ b).takeWhile p = a ++ b.takeWhile p := by
  induction a with
  | nil => simp
  | cons x xs ih =>
    simp only [List.all_cons, Bool.and_eq_true] at h
    simp [List.takeWhile_cons, h.1, ih h.2]

/-! ## `generateBookmarkHtml` (exportService.ts lines 6–70)

The source accumulates a string with `html += …`.  Every appended template
ends in `"\n"` except the final `</DL><p>`; we write each appended line as
`content ++ [nlC]` with the content spelled out exactly as in the template.
`Date.now()` at export time enters as the parameter `now`. -/

/-- The fixed header template (lines 9–17 of exportService.ts), one entry
per line of the template literal. -/
def headerLines : List (List Char) :=
  [("<!DOCTYPE NETSCAPE-Bookmark-file-1>").data,
   ("<!-- This is an automatically generated file.").data,
   ("     It will be read and overwritten.").data,
   ("     DO NOT EDIT! -->").data,
   ("<META HTTP-EQUIV=\"Content-Type\" CONTENT=\"text/html; charset=UTF-8\">").data,
   ("<TITLE>Bookmarks</TITLE>").data,
   ("<H1>Bookmarks</H1>").data,
   ("<DL><p>").data]

/-- Join lines with a terminating newline after each. -/
def lineJoin (lines : List (List Char)) : List Char :=
  (lines.map (fun l => l ++ [nlC])).flatten

def headerL : List Char := lineJoin headerLines

/-- One step of building the `linksByCat` map (exportService.ts lines
30–35): `list = map.get(id) || []; list.push(link); map.set(id, list)`.
A JavaScript `Map` keeps keys in insertion order, so it is an association
list where setting an existing key updates it in place and a new key is
appended at the end. -/
def linksByCatInsert (m : List (String × List LinkItem)) (l : LinkItem) :
    List (String × List LinkItem) :=
  match m with
  | [] => [(l.categoryId, [l])]
  | (k, ls) :: rest =>
    if k = l.categoryId then (k, ls ++ [l]) :: rest
    else (k, ls) :: linksByCatInsert rest l

/-- Group links by `categoryId` (exportService.ts lines 30–35). -/
def linksByCat (links : List LinkItem) : List (String × List LinkItem) :=
  links.foldl linksByCatInsert []

/-- `map.get(k) || []`. -/
def mapGetD (m : List (String × List LinkItem)) (k : String) : List LinkItem :=
  match m.find? (fun p => p.1 == k) with
  | some p => p.2
  | none => []

theorem mapGetD_nil (k : String) : mapGetD [] k = [] := rfl

theorem mapGetD_cons (k' : String) (ls : List LinkItem)
    (rest : List (String × List LinkItem)) (k : String) :
    mapGetD ((k', ls) :: rest) k = if k' = k then ls else mapGetD rest k := by
  by_cases h : k' = k
  · have hb : (k' == k) = true := beq_iff_eq.mpr h
    simp [mapGetD, List.find?_cons, hb, h]
  · have hb : (k' == k) = false := beq_eq_false_iff_ne.mpr h
    simp [mapGetD, List.find?_cons, hb, h]

theorem mapGetD_insert (m : List (String × List LinkItem)) (l : LinkItem)
    (k : String) :
    mapGetD (linksByCatInsert m l) k =
      if l.categoryId = k then mapGetD m k ++ [l] else mapGetD m k := by
  induction m with
  | nil =>
    by_cases h : l.categoryId = k <;>
      simp [linksByCatInsert, mapGetD_cons, mapGetD_nil, h]
  | cons p rest ih =>
    obtain ⟨k', ls⟩ := p
    by_cases hk : k' = l.categoryId
    · simp only [linksByCatInsert, if_pos hk]
      rw [mapGetD_cons, mapGetD_cons]
      by_cases h : k' = k
      · have hck : l.categoryId = k := (hk.symm).trans h
        simp [h, hck]
      · have hck : ¬ l.categoryId = k := fun hc => h (hk.trans hc)
        simp [h, hck]
    · simp only [linksByCatInsert, if_neg hk]
      rw [mapGetD_cons, mapGetD_cons, ih]
      by_cases h : k' = k
      · have hck : ¬ l.categoryId = k := fun hc => hk (h.trans hc.symm)
        simp [h, hck]
      · by_cases hck : l.categoryId = k <;> simp [h, hck]

/-- Looking a key up in the grouped map gives exactly the links with that
`categoryId`, in their original order. -/
theorem mapGetD_linksByCat (links : List LinkItem) (k : String) :
    mapGetD (linksByCat links) k = links.filter (fun l => l.categoryId == k) := by
  suffices h : ∀ m, mapGetD (List.foldl linksByCatInsert m links) k =
      mapGetD m k ++ links.filter (fun l => l.categoryId == k) by
    have := h []
    simpa [linksByCat, mapGetD, List.find?] using this
  induction links with
  | nil => intro m; simp
  | cons l ls ih =>
    intro m
    simp only [List.foldl_cons, ih (linksByCatInsert m l), mapGetD_insert]
    by_cases h : l.categoryId = k
    · simp [List.filter_cons, h]
    · have hb : (l.categoryId == k) = false := by simp [h]
      simp [List.filter_cons, h, hb]

/-- The `<H3>` folder-heading line (exportService.ts line 41 and line 58),
without its trailing newline. -/
def h3Content (now : Nat) (name : String) : List Char :=
  ("    <DT><H3 ADD_DATE=\"").data ++ natDigits now
    ++ ("\" LAST_MODIFIED=\"").data ++ natDigits now
    ++ ("\">").data ++ escapeHtmlL name.data ++ ("</H3>").data

def dlOpenContent : List Char := ("    <DL><p>").data

def dlCloseContent : List Char := ("    </DL><p>").data

/-- `link.icon ? \` ICON="${link.icon}"\` : ''` (line 46).  JavaScript
truthiness: both a missing icon and an empty-string icon yield the empty
attribute. -/
def iconAttrL (icon : Option String) : List Char :=
  match icon with
  | none => []
  | some ic => if ic = "" then [] else (" ICON=\"").data ++ ic.data ++ ("\"").data

/-- The anchor line emitted inside a category folder (line 47), without its
trailing newline. -/
def anchorContentCat (l : LinkItem) : List Char :=
  ("        <DT><A HREF=\"").data ++ l.url.data
    ++ ("\" ADD_DATE=\"").data ++ natDigits (l.createdAt / 1000)
    ++ ("\"").data ++ iconAttrL l.icon
    ++ (">").data ++ escapeHtmlL l.title.data ++ ("</A>").data

/-- The anchor line emitted inside the uncategorized folder (line 62): the
same shape but with no `ICON` attribute at all. -/
def anchorContentUncat (l : LinkItem) : List Char :=
  ("        <DT><A HREF=\"").data ++ l.url.data
    ++ ("\" ADD_DATE=\"").data ++ natDigits (l.createdAt / 1000)
    ++ ("\">").data ++ escapeHtmlL l.title.data ++ ("</A>").data

/-- The block emitted for one category (lines 38–51). -/
def catFolderL (now : Nat) (links : List LinkItem) (cat : Category) : List Char :=
  (h3Content now cat.name ++ [nlC]) ++ (dlOpenContent ++ [nlC])
    ++ ((mapGetD (linksByCat links) cat.id).map
          (fun l => anchorContentCat l ++ [nlC])).flatten
    ++ (dlCloseContent ++ [nlC])

/-- `links.filter(l => !validCatIds.has(l.categoryId))` (lines 54–55). -/
def uncategorizedLinks (links : List LinkItem) (cats : List Category) :
    List LinkItem :=
  links.filter (fun l => !(cats.any (fun c => c.id == l.categoryId)))

/-- The uncategorized folder name (line 58). -/
def uncatName : String := "未分类"

/-- The conditional uncategorized block (lines 57–65). -/
def uncatPartL (now : Nat) (links : List LinkItem) (cats : List Category) :
    List Char :=
  if (uncategorizedLinks links cats).length > 0 then
    (h3Content now uncatName ++ [nlC]) ++ (dlOpenContent ++ [nlC])
      ++ ((uncategorizedLinks links cats).map
            (fun l => anchorContentUncat l ++ [nlC])).flatten
      ++ (dlCloseContent ++ [nlC])
  else []

/-- `generateBookmarkHtml` (lines 6–70) on the `List Char` representation:
header, one folder per category in order, the conditional uncategorized
folder, and the closing `</DL><p>` with no trailing newline. -/
def genHtmlL (now : Nat) (links : List LinkItem) (cats : List Category) :
    List Char :=
  headerL ++ (cats.map (catFolderL now links)).flatten
    ++ uncatPartL now links cats ++ ("</DL><p>").data

/-- `generateBookmarkHtml` at `String` level. -/
def generateBookmarkHtml (now : Nat) (links : List LinkItem)
    (cats : List Category) : String :=
  ⟨genHtmlL now links cats⟩

/-! ## JSON values and the fetch model

`response.json()` produces an untyped JSON value; `Array.isArray` checks the
shape of a field.  A `fetch` call either settles with a status code and a
body, or rejects (network error).  A body of `none` models a response whose
text is not valid JSON, so that `response.json()` throws. -/

inductive Json where
  | null
  | bool (b : Bool)
  | num (n : Int)
  | str (s : String)
  | arr (elems : List Json)
  | obj (fields : List (String × Json))
deriving Repr

/-- `data.key` on a decoded JSON value: `undefined` (here `none`) unless the
value is an object with that field. -/
def Json.getField (j : Json) (key : String) : Option Json :=
  match j with
  | .obj fields => (fields.find? (fun p => p.1 == key)).map (fun p => p.2)
  | _ => none

/-- `Array.isArray` applied to a possibly-`undefined` value. -/
def isArrayO : Option Json → Bool
  | some (.arr _) => true
  | _ => false

/-- `Array.isArray(data.key)`. -/
def isArrayField (j : Json) (key : String) : Bool := isArrayO (j.getField key)

/-- The outcome of a single `fetch` call: a settled response (status code
plus decoded body, `none` when the body is not JSON) or a rejected promise. -/
inductive FetchOutcome where
  | success (status : Nat) (body : Option Json)
  | failure
deriving Repr

/-- `response.ok` per the Fetch standard: status in 200–299. -/
def respOk (status : Nat) : Bool := 200 ≤ status && status ≤ 299

/-- Run an operation that performs exactly one `fetch` against a queue of
pending fetch outcomes: the operation consumes the first outcome and leaves
the rest untouched.  An operation that retried would consume further
outcomes from the queue. -/
def runOnce {α : Type} (op : FetchOutcome → α) :
    List FetchOutcome → Option α × List FetchOutcome
  | [] => (none, [])
  | o :: rest => (some (op o), rest)

/-! ## WebDAV transport (src/services/webDavService.ts, src/unnamed/part_000) -/

/-- `checkWebDavConnection` (lines 9–24): PROPFIND, accept 207 or 200; any
thrown error is caught and becomes `false`. -/
def checkWebDavConnection (o : FetchOutcome) : Bool :=
  match o with
  | .success status _ => status == 207 || status == 200
  | .failure => false

/-- `uploadBackup` (lines 26–46): PUT, accept `response.ok` or 201 or 204;
any thrown error is caught and becomes `false`. -/
def uploadBackup (o : FetchOutcome) : Bool :=
  match o with
  | .success status _ => respOk status || status == 201 || status == 204
  | .failure => false

/-- `downloadBackup` (lines 48–71): GET; non-ok status returns `null`; a
body that fails to decode throws and is caught to `null`; a decoded payload
is accepted only when both `data.links` and `data.categories` are arrays;
any other thrown error is caught and becomes `null`. -/
def downloadBackup (o : FetchOutcome) : Option Json :=
  match o with
  | .failure => none
  | .success status body =>
    if respOk status = false then none
    else
      match body with
      | none => none
      | some data =>
        if isArrayField data "links" && isArrayField data "categories" then
          some data
        else none

/-! ## Application state handlers (App.tsx, src/unnamed/part_001) -/

inductive SyncStatus where
  | idle
  | saving
  | saved
  | error
deriving DecidableEq, Repr

/-- The slice of App state that `syncToCloud` touches: the in-memory token,
the persisted `cloudnav_auth_token` local-storage key, the auth-modal flag
and the sync status indicator. -/
structure AppState where
  authToken : String
  storedAuthKey : Option String
  isAuthOpen : Bool
  syncStatus : SyncStatus
deriving DecidableEq, Repr

/-- `syncToCloud` (App.tsx lines 382–412): POST to `/api/storage`.  A 401
clears the token, removes the persisted auth key, opens the auth modal and
returns `false`; any other non-ok response throws and is caught to an error
status with `false`; otherwise returns `true` with status `saved`.  (The
delayed reset of `saved` to `idle` via `setTimeout` is not modelled.) -/
def syncToCloud (st : AppState) (o : FetchOutcome) : Bool × AppState :=
  let st1 : AppState := { st with syncStatus := .saving }
  match o with
  | .failure => (false, { st1 with syncStatus := .error })
  | .success status _ =>
    if status = 401 then
      (false, { st1 with authToken := "", storedAuthKey := none,
                         isAuthOpen := true, syncStatus := .error })
    else if respOk status = false then
      (false, { st1 with syncStatus := .error })
    else
      (true, { st1 with syncStatus := .saved })

/-- `DEFAULT_CATEGORIES` from `src/types.ts`. -/
def DEFAULT_CATEGORIES : List Category :=
  [⟨"common", "常用推荐", "Star", none⟩,
   ⟨"dev", "开发工具", "Code", none⟩,
   ⟨"design", "设计资源", "Palette", none⟩,
   ⟨"read", "阅读资讯", "BookOpen", none⟩,
   ⟨"ent", "休闲娱乐", "Gamepad2", none⟩,
   ⟨"ai", "人工智能", "Bot", none⟩]

/-- `handleDeleteCategory` (App.tsx lines 597–610): drop the category,
reassign its links to the fixed id `common`, and re-add the first default
category if no category is left. -/
def handleDeleteCategory (catId : String) (links : List LinkItem)
    (cats : List Category) : List LinkItem × List Category :=
  let newCats := cats.filter (fun c => c.id != catId)
  let targetId : String := "common"
  let newLinks := links.map (fun l =>
    if l.categoryId = catId then { l with categoryId := targetId } else l)
  let newCats2 := if newCats.length = 0 then newCats ++ [DEFAULT_CATEGORIES.head!]
                  else newCats
  (newLinks, newCats2)

/-- The category-merge loop of `handleImport` (App.tsx lines 522–527):
start from the existing categories and append each parsed category whose
name is not already present in the list built so far. -/
def mergeCategories (cats newCats : List Category) : List Category :=
  newCats.foldl
    (fun acc nc => if acc.any (fun c => c.name == nc.name) then acc
                   else acc ++ [nc])
    cats

/-- The merge performed by `handleImport` (App.tsx lines 519–530): merged
categories as above, and all parsed links appended unconditionally. -/
def handleImportMerge (links : List LinkItem) (cats : List Category)
    (newLinks : List LinkItem) (newCats : List Category) :
    List LinkItem × List Category :=
  (links ++ newLinks, mergeCategories cats newCats)

/-! ## Merge lemmas for `handleImport` -/

/-- One step of the category merge when the name is already present. -/
theorem mergeCategories_cons_pos (cats : List Category) (nc : Category)
    (rest : List Category)
    (h : (cats.any (fun c => c.name == nc.name)) = true) :
    mergeCategories cats (nc :: rest) = mergeCategories cats rest := by
  simp only [mergeCategories, List.foldl_cons]
  rw [if_pos h]

/-- One step of the category merge when the name is new. -/
theorem mergeCategories_cons_neg (cats : List Category) (nc : Category)
    (rest : List Category)
    (h : (cats.any (fun c => c.name == nc.name)) = false) :
    mergeCategories cats (nc :: rest) = mergeCategories (cats ++ [nc]) rest := by
  simp only [mergeCategories, List.foldl_cons]
  rw [if_neg (by rw [h]; exact Bool.false_ne_true)]

/-- The merge only ever appends at the end: the existing categories stay,
in order, as a prefix, and everything appended comes from the parsed
categories. -/
theorem mergeCategories_prefix (cats newCats : List Category) :
    ∃ suffix, mergeCategories cats newCats = cats ++ suffix ∧
      ∀ c ∈ suffix, c ∈ newCats := by
  induction newCats generalizing cats with
  | nil => exact ⟨[], by simp [mergeCategories]⟩
  | cons nc rest ih =>
    by_cases h : cats.any (fun c => c.name == nc.name)
    · obtain ⟨suffix, hs, hmem⟩ := ih cats
      refine ⟨suffix, ?_, fun c hc => List.mem_cons_of_mem _ (hmem c hc)⟩
      rw [mergeCategories_cons_pos cats nc rest h]
      exact hs
    · rw [Bool.not_eq_true] at h
      obtain ⟨suffix, hs, hmem⟩ := ih (cats ++ [nc])
      refine ⟨nc :: suffix, ?_, ?_⟩
      · rw [mergeCategories_cons_neg cats nc rest h, hs]
        simp
      · intro c hc
        rcases List.mem_cons.mp hc with rfl | hc
        · exact List.mem_cons_self _ _
        · exact List.mem_cons_of_mem _ (hmem c hc)

/-- Every parsed category's name is represented in the merged list. -/
theorem mergeCategories_name_covered (cats newCats : List Category) :
    ∀ nc ∈ newCats, ∃ c ∈ mergeCategories cats newCats, c.name = nc.name := by
  induction newCats generalizing cats with
  | nil => intro nc h; exact absurd h (List.not_mem_nil nc)
  | cons nc0 rest ih =>
    intro nc hnc
    rcases List.mem_cons.mp hnc with rfl | hnc
    · by_cases h : cats.any (fun c => c.name == nc.name)
      · obtain ⟨c, hc, hname⟩ := List.any_eq_true.mp h
        obtain ⟨suffix, hs, _⟩ := mergeCategories_prefix cats (nc :: rest)
        refine ⟨c, ?_, beq_iff_eq.mp hname⟩
        rw [hs]
        exact List.mem_append_left _ hc
      · rw [Bool.not_eq_true] at h
        obtain ⟨suffix, hs, _⟩ := mergeCategories_prefix (cats ++ [nc]) rest
        refine ⟨nc, ?_, rfl⟩
        rw [mergeCategories_cons_neg cats nc rest h, hs]
        exact List.mem_append_left _ (List.mem_append_right _ (by simp))
    · by_cases h : cats.any (fun c => c.name == nc0.name)
      · rw [mergeCategories_cons_pos cats nc0 rest h]
        exact ih cats nc hnc
      · rw [Bool.not_eq_true] at h
        rw [mergeCategories_cons_neg cats nc0 rest h]
        exact ih (cats ++ [nc0]) nc hnc

/-- If some category named `n` already exists, the merge appends no further
category of that name: every merged entry is an original or differs in
name. -/
theorem mergeCategories_no_dup_name (cats newCats : List Category)
    (n : String) (hn : ∃ c ∈ cats, c.name = n) :
    ∀ x ∈ mergeCategories cats newCats, x ∈ cats ∨ x.name ≠ n := by
  induction newCats generalizing cats with
  | nil =>
    intro x hx
    simp [mergeCategories] at hx
    exact Or.inl hx
  | cons nc rest ih =>
    intro x hx
    by_cases h : cats.any (fun c => c.name == nc.name)
    · rw [mergeCategories_cons_pos cats nc rest h] at hx
      exact ih cats hn x hx
    · rw [Bool.not_eq_true] at h
      rw [mergeCategories_cons_neg cats nc rest h] at hx
      obtain ⟨c0, hc0, hc0n⟩ := hn
      have hnc : nc.name ≠ n := by
        intro he
        have hany : (cats.any fun c => c.name == nc.name) = true :=
          List.any_eq_true.mpr ⟨c0, hc0, beq_iff_eq.mpr (by rw [hc0n, he])⟩
        rw [h] at hany
        exact Bool.false_ne_true hany
      have hn2 : ∃ c ∈ cats ++ [nc], c.name = n :=
        ⟨c0, List.mem_append_left _ hc0, hc0n⟩
      rcases ih (cats ++ [nc]) hn2 x hx with hx2 | hx2
      · rcases List.mem_append.mp hx2 with hx3 | hx3
        · exact Or.inl hx3
        · simp at hx3
          subst hx3
          exact Or.inr hnc
      · exact Or.inr hx2

/-! ## Claim theorems: transport and state handlers -/

/-- C4: for every decoded JSON payload and every ok status, `downloadBackup`
returns the payload exactly when both top-level fields `links` and
`categories` are arrays, and returns null whenever either is not an array;
rejection is the same `null` sentinel in every case, with no exception. -/
theorem claim_C4_download_validation (data : Json) (st : Nat)
    (h : respOk st = true) :
    (downloadBackup (.success st (some data)) = some data ↔
      (isArrayField data "links" && isArrayField data "categories") = true) ∧
    ((isArrayField data "links" && isArrayField data "categories") = false →
      downloadBackup (.success st (some data)) = none) := by
  constructor
  · constructor
    · intro hd
      by_cases hb : (isArrayField data "links" && isArrayField data "categories") = true
      · exact hb
      · rw [Bool.not_eq_true] at hb
        simp [downloadBackup, h, hb] at hd
    · intro hb
      simp [downloadBackup, h, hb]
  · intro hb
    simp [downloadBackup, h, hb]

theorem claim_C4_download_validation_witness :
    downloadBackup (.success 200 (some (Json.obj
        [("links", Json.arr []), ("categories", Json.arr [])]))) =
      some (Json.obj [("links", Json.arr []), ("categories", Json.arr [])]) ∧
    downloadBackup (.success 200 (some (Json.obj
        [("links", Json.obj []), ("categories", Json.arr [])]))) = none := by
  constructor
  · exact (claim_C4_download_validation _ 200 (by decide)).1.mpr (by decide)
  · exact (claim_C4_download_validation _ 200 (by decide)).2 (by decide)

/-- C5: on a 401 response `syncToCloud` clears the in-memory token, removes
the persisted auth key, opens the auth prompt, reports an error status and
returns `false`; and it consumes exactly one fetch outcome, so no retry is
issued with the same credential. -/
theorem claim_C5_sync_401 (st : AppState) (body : Option Json)
    (rest : List FetchOutcome) :
    syncToCloud st (.success 401 body) =
      (false, { st with authToken := "", storedAuthKey := none,
                        isAuthOpen := true, syncStatus := .error }) ∧
    runOnce (syncToCloud st) (.success 401 body :: rest) =
      (some (syncToCloud st (.success 401 body)), rest) := by
  constructor
  · simp [syncToCloud]
  · rfl

/-- C6: deleting a category keeps the link list the same length, leaves
every link with a different category untouched, and rewrites exactly the
links of the deleted category to the fixed default id `common`; no link is
removed. -/
theorem claim_C6_delete_reassigns (catId : String) (links : List LinkItem)
    (cats : List Category) :
    (handleDeleteCategory catId links cats).1.length = links.length ∧
    ∀ i : Nat,
      ((handleDeleteCategory catId links cats).1)[i]? =
        (links[i]?).map (fun l =>
          if l.categoryId = catId then { l with categoryId := "common" }
          else l) := by
  constructor
  · simp [handleDeleteCategory]
  · intro i
    simp [handleDeleteCategory, List.getElem?_map]

/-- C7: importing appends all parsed links unconditionally (no URL
de-duplication), keeps the existing categories as a prefix, appends only
parsed categories, never appends a category whose name is already present,
and represents every parsed category's name in the result. -/
theorem claim_C7_import_merge (links newLinks : List LinkItem)
    (cats newCats : List Category) :
    (handleImportMerge links cats newLinks newCats).1 = links ++ newLinks ∧
    (handleImportMerge links cats newLinks newCats).1.length =
      links.length + newLinks.length ∧
    (∃ suffix, (handleImportMerge links cats newLinks newCats).2 =
        cats ++ suffix ∧ ∀ c ∈ suffix, c ∈ newCats) ∧
    (∀ nc ∈ newCats, (∃ c ∈ cats, c.name = nc.name) →
      ∀ x ∈ (handleImportMerge links cats newLinks newCats).2,
        x ∈ cats ∨ x.name ≠ nc.name) ∧
    (∀ nc ∈ newCats,
      ∃ c ∈ (handleImportMerge links cats newLinks newCats).2,
        c.name = nc.name) := by
  refine ⟨rfl, by simp [handleImportMerge], ?_, ?_, ?_⟩
  · exact mergeCategories_prefix cats newCats
  · intro nc _ hex
    exact mergeCategories_no_dup_name cats newCats nc.name hex
  · exact mergeCategories_name_covered cats newCats

theorem claim_C7_import_merge_witness :
    (∀ x ∈ (handleImportMerge [] [⟨"a", "Dev", "Code", none⟩] []
        [⟨"b", "Dev", "Star", none⟩, ⟨"c", "New", "Star", none⟩]).2,
      x ∈ [(⟨"a", "Dev", "Code", none⟩ : Category)] ∨ x.name ≠ "Dev") ∧
    (∃ c ∈ (handleImportMerge [] [⟨"a", "Dev", "Code", none⟩] []
        [⟨"b", "Dev", "Star", none⟩, ⟨"c", "New", "Star", none⟩]).2,
      c.name = "New") := by
  constructor
  · exact (claim_C7_import_merge [] [] [⟨"a", "Dev", "Code", none⟩]
      [⟨"b", "Dev", "Star", none⟩, ⟨"c", "New", "Star", none⟩]).2.2.2.1
      ⟨"b", "Dev", "Star", none⟩ (by simp)
      ⟨⟨"a", "Dev", "Code", none⟩, by simp, rfl⟩
  · exact (claim_C7_import_merge [] [] [⟨"a", "Dev", "Code", none⟩]
      [⟨"b", "Dev", "Star", none⟩, ⟨"c", "New", "Star", none⟩]).2.2.2.2
      ⟨"c", "New", "Star", none⟩ (by simp)

/-- C9: every transport operation maps a rejected fetch (and, for download,
an undecodable body) to its sentinel value instead of propagating an
exception, and each operation consumes exactly one fetch outcome — there is
no retry. -/
theorem claim_C9_transport_sentinels :
    checkWebDavConnection .failure = false ∧
    uploadBackup .failure = false ∧
    downloadBackup .failure = none ∧
    (∀ st : Nat, downloadBackup (.success st none) = none) ∧
    (∀ (o : FetchOutcome) (rest : List FetchOutcome),
      runOnce checkWebDavConnection (o :: rest) =
        (some (checkWebDavConnection o), rest)) ∧
    (∀ (o : FetchOutcome) (rest : List FetchOutcome),
      runOnce uploadBackup (o :: rest) = (some (uploadBackup o), rest)) ∧
    (∀ (o : FetchOutcome) (rest : List FetchOutcome),
      runOnce downloadBackup (o :: rest) = (some (downloadBackup o), rest)) := by
  refine ⟨rfl, rfl, rfl, ?_, fun o rest => rfl, fun o rest => rfl,
    fun o rest => rfl⟩
  intro st
  by_cases h : respOk st = false <;> simp [downloadBackup, h]

/-! ## C2: the escaping discipline of the generator

`genHtmlSpecL` below is written from the spec's words, not from the source:
category names and link titles pass through the character-wise five-entity
map `escChar`, while URLs and icon references are embedded verbatim.
Comparing it with `genHtmlL` (translated from the source) settles the
claim. -/

/-- The spec-side escaping: the character-wise entity map. -/
def escSpecL (s : List Char) : List Char := (s.map escChar).flatten

def h3ContentSpec (now : Nat) (name : String) : List Char :=
  ("    <DT><H3 ADD_DATE=\"").data ++ natDigits now
    ++ ("\" LAST_MODIFIED=\"").data ++ natDigits now
    ++ ("\">").data ++ escSpecL name.data ++ ("</H3>").data

def anchorContentCatSpec (l : LinkItem) : List Char :=
  ("        <DT><A HREF=\"").data ++ l.url.data
    ++ ("\" ADD_DATE=\"").data ++ natDigits (l.createdAt / 1000)
    ++ ("\"").data ++ iconAttrL l.icon
    ++ (">").data ++ escSpecL l.title.data ++ ("</A>").data

def anchorContentUncatSpec (l : LinkItem) : List Char :=
  ("        <DT><A HREF=\"").data ++ l.url.data
    ++ ("\" ADD_DATE=\"").data ++ natDigits (l.createdAt / 1000)
    ++ ("\">").data ++ escSpecL l.title.data ++ ("</A>").data

def catFolderSpecL (now : Nat) (links : List LinkItem) (cat : Category) :
    List Char :=
  (h3ContentSpec now cat.name ++ [nlC]) ++ (dlOpenContent ++ [nlC])
    ++ ((mapGetD (linksByCat links) cat.id).map
          (fun l => anchorContentCatSpec l ++ [nlC])).flatten
    ++ (dlCloseContent ++ [nlC])

def uncatPartSpecL (now : Nat) (links : List LinkItem) (cats : List Category) :
    List Char :=
  if (uncategorizedLinks links cats).length > 0 then
    (h3ContentSpec now uncatName ++ [nlC]) ++ (dlOpenContent ++ [nlC])
      ++ ((uncategorizedLinks links cats).map
            (fun l => anchorContentUncatSpec l ++ [nlC])).flatten
      ++ (dlCloseContent ++ [nlC])
  else []

def genHtmlSpecL (now : Nat) (links : List LinkItem) (cats : List Category) :
    List Char :=
  headerL ++ (cats.map (catFolderSpecL now links)).flatten
    ++ uncatPartSpecL now links cats ++ ("</DL><p>").data

/-- C2: in the output of `generateBookmarkHtml` every category name and link
title is embedded through exactly the character-wise five-entity
substitution (`&` `<` `>` `"` `'` become `&amp;` `&lt;` `&gt;` `&quot;`
`&#039;`, with no double escaping), every URL and icon reference is embedded
verbatim, and an escaped string is read back as the original literal string
by the entity decoder. -/
theorem claim_C2_escaping :
    (∀ s : List Char, escapeHtmlL s = escSpecL s) ∧
    (∀ s : List Char, unescapeHtml (escapeHtmlL s) = s) ∧
    (∀ (now : Nat) (links : List LinkItem) (cats : List Category),
      genHtmlL now links cats = genHtmlSpecL now links cats) := by
  refine ⟨escapeHtmlL_eq_join_map, unescapeHtml_escapeHtmlL, ?_⟩
  intro now links cats
  have hcf : catFolderL now links = catFolderSpecL now links := by
    funext cat
    simp only [catFolderL, catFolderSpecL, h3Content, h3ContentSpec,
      anchorContentCat, anchorContentCatSpec, escSpecL,
      escapeHtmlL_eq_join_map]
  rw [genHtmlL, genHtmlSpecL, hcf]
  simp only [uncatPartL, uncatPartSpecL, h3Content, h3ContentSpec,
    anchorContentUncat, anchorContentUncatSpec, escSpecL,
    escapeHtmlL_eq_join_map]

/-! ## C3 and C10: folder membership and the uncategorized block -/

/-- Extend an infix through surrounding context. -/
theorem infix_extend {α : Type} (l m a b : List α) (h : l <:+: m) :
    l <:+: a ++ m ++ b := by
  obtain ⟨s, t, rfl⟩ := h
  exact ⟨a ++ s, t ++ b, by simp [List.append_assoc]⟩

/-- C3: a link whose category id matches no category is counted exactly
once in the uncategorized folder's links and appears in no category
folder's links, while a link whose category id matches some category is
never in the uncategorized folder.  (`mapGetD (linksByCat links) c.id` and
`uncategorizedLinks links cats` are exactly the link lists the generator
emits into the folder of `c` and into the trailing uncategorized folder.) -/
theorem claim_C3_uncategorized_exclusive (links : List LinkItem)
    (cats : List Category) (l : LinkItem) (hl : l ∈ links)
    (hcount : links.count l = 1) :
    ((∀ c ∈ cats, c.id ≠ l.categoryId) →
      (uncategorizedLinks links cats).count l = 1 ∧
      ∀ c ∈ cats, l ∉ mapGetD (linksByCat links) c.id) ∧
    ((∃ c ∈ cats, c.id = l.categoryId) → l ∉ uncategorizedLinks links cats) := by
  constructor
  · intro hno
    constructor
    · have hp : (!(cats.any fun c => c.id == l.categoryId)) = true := by
        simp only [Bool.not_eq_true', List.any_eq_false, beq_iff_eq]
        exact hno
      have hcf : List.count l
          (List.filter (fun l => !(cats.any fun c => c.id == l.categoryId))
            links) = List.count l links :=
        List.count_filter hp
      rw [uncategorizedLinks, hcf, hcount]
    · intro c hc hmem
      rw [mapGetD_linksByCat] at hmem
      have := List.of_mem_filter hmem
      exact hno c hc (beq_iff_eq.mp this).symm
  · rintro ⟨c, hc, hceq⟩ hmem
    have := List.of_mem_filter hmem
    rw [Bool.not_eq_true', List.any_eq_false] at this
    exact this c hc (beq_iff_eq.mpr hceq)

theorem claim_C3_uncategorized_exclusive_witness :
    (uncategorizedLinks
        [⟨"1", "t", "u", none, none, "ghost", 0, false⟩]
        [⟨"dev", "Dev", "Code", none⟩]).count
      ⟨"1", "t", "u", none, none, "ghost", 0, false⟩ = 1 ∧
    (⟨"1", "t", "u", none, none, "ghost", 0, false⟩ : LinkItem) ∉
      mapGetD (linksByCat [⟨"1", "t", "u", none, none, "ghost", 0, false⟩])
        "dev" := by
  have h := (claim_C3_uncategorized_exclusive
      [⟨"1", "t", "u", none, none, "ghost", 0, false⟩]
      [⟨"dev", "Dev", "Code", none⟩]
      ⟨"1", "t", "u", none, none, "ghost", 0, false⟩
      (by decide) (by decide)).1 (by decide)
  exact ⟨h.1, h.2 ⟨"dev", "Dev", "Code", none⟩ (by decide)⟩

/-- C10: the trailing uncategorized block is present (nonempty) exactly when
some link's category id matches no category; every category — even one with
no links — contributes its folder block to the output, the block collapsing
to an empty folder when the category has no links. -/
theorem claim_C10_uncat_folder_iff (now : Nat) (links : List LinkItem)
    (cats : List Category) :
    (uncatPartL now links cats ≠ [] ↔
      ∃ l ∈ links, ∀ c ∈ cats, c.id ≠ l.categoryId) ∧
    (∀ c ∈ cats, catFolderL now links c <:+: genHtmlL now links cats) ∧
    (∀ c ∈ cats, mapGetD (linksByCat links) c.id = [] →
      catFolderL now links c =
        (h3Content now c.name ++ [nlC]) ++ (dlOpenContent ++ [nlC])
          ++ (dlCloseContent ++ [nlC])) := by
  refine ⟨?_, ?_, ?_⟩
  · have hexists : uncategorizedLinks links cats ≠ [] ↔
        ∃ l ∈ links, ∀ c ∈ cats, c.id ≠ l.categoryId := by
      constructor
      · intro hne
        obtain ⟨l, hmem⟩ := List.exists_mem_of_ne_nil _ hne
        have hf := List.mem_filter.mp hmem
        refine ⟨l, hf.1, ?_⟩
        have := hf.2
        rw [Bool.not_eq_true', List.any_eq_false] at this
        intro c hc hceq
        exact this c hc (beq_iff_eq.mpr hceq)
      · rintro ⟨l, hl, hno⟩ hnil
        have hp : (!(cats.any fun c => c.id == l.categoryId)) = true := by
          simp only [Bool.not_eq_true', List.any_eq_false, beq_iff_eq]
          exact hno
        have : l ∈ uncategorizedLinks links cats :=
          List.mem_filter.mpr ⟨hl, hp⟩
        rw [hnil] at this
        exact List.not_mem_nil l this
    rw [uncatPartL]
    by_cases h : (uncategorizedLinks links cats).length > 0
    · rw [if_pos h]
      have hne : uncategorizedLinks links cats ≠ [] :=
        List.ne_nil_of_length_pos h
      simp only [ne_eq, List.append_eq_nil, List.cons_ne_self,
        and_false, false_and, not_false_eq_true, true_iff]
      · exact hexists.mp hne
    · rw [if_neg h]
      have hnil : uncategorizedLinks links cats = [] := by
        rcases List.eq_nil_or_concat (uncategorizedLinks links cats) with h0 | ⟨a, b, hab⟩
        · exact h0
        · exfalso; apply h; rw [hab]; simp
      simp only [ne_eq, not_true_eq_false, false_iff]
      rw [← hexists]
      simp [hnil]
  · intro c hc
    have hmem : catFolderL now links c ∈ cats.map (catFolderL now links) :=
      List.mem_map_of_mem _ hc
    have hinf : catFolderL now links c <:+:
        (cats.map (catFolderL now links)).flatten :=
      List.infix_of_mem_flatten hmem
    rw [genHtmlL]
    have := infix_extend _ _ headerL
      (uncatPartL now links cats ++ ("</DL><p>").data) hinf
    simpa [List.append_assoc] using this
  · intro c hc hnil
    rw [catFolderL, hnil]
    simp

theorem claim_C10_uncat_folder_iff_witness :
    (catFolderL 0 [] ⟨"dev", "Dev", "Code", none⟩ <:+:
      genHtmlL 0 [] [⟨"dev", "Dev", "Code", none⟩]) ∧
    catFolderL 0 [] ⟨"dev", "Dev", "Code", none⟩ =
      (h3Content 0 "Dev" ++ [nlC]) ++ (dlOpenContent ++ [nlC])
        ++ (dlCloseContent ++ [nlC]) := by
  constructor
  · exact (claim_C10_uncat_folder_iff 0 [] [⟨"dev", "Dev", "Code", none⟩]).2.1
      ⟨"dev", "Dev", "Code", none⟩ (by decide)
  · exact (claim_C10_uncat_folder_iff 0 [] [⟨"dev", "Dev", "Code", none⟩]).2.2
      ⟨"dev", "Dev", "Code", none⟩ (by decide) (by decide)

/-! ## C8: ADD_DATE and ICON attributes on anchors -/

/-- C8 (amended): every anchor — in a category folder or in the
uncategorized folder — carries `ADD_DATE` equal to the link's creation
timestamp floored from milliseconds to seconds; a category-folder anchor
carries an `ICON` attribute exactly when the icon reference is present and
non-empty (JavaScript truthiness); an uncategorized anchor is exactly the
category-folder anchor of the same link with its icon removed, so it never
carries an `ICON` attribute. -/
theorem claim_C8_amended_anchor_attributes (l : LinkItem) :
    (("\" ADD_DATE=\"").data ++ natDigits (l.createdAt / 1000)
        ++ ("\"").data) <:+: anchorContentCat l ∧
    (iconAttrL l.icon = [] ↔ (l.icon = none ∨ l.icon = some "")) ∧
    (∀ ic : String, l.icon = some ic → ic ≠ "" →
      iconAttrL l.icon = (" ICON=\"").data ++ ic.data ++ ("\"").data) ∧
    anchorContentUncat l = anchorContentCat { l with icon := none } := by
  refine ⟨?_, ?_, ?_, ?_⟩
  · refine ⟨("        <DT><A HREF=\"").data ++ l.url.data,
      iconAttrL l.icon ++ (">").data ++ escapeHtmlL l.title.data
        ++ ("</A>").data, ?_⟩
    simp [anchorContentCat, List.append_assoc]
  · cases hic : l.icon with
    | none => simp [iconAttrL]
    | some ic =>
      by_cases h : ic = ""
      · subst h; simp [iconAttrL]
      · simp [iconAttrL, h]
  · intro ic hic hne
    rw [hic]
    simp [iconAttrL, hne]
  · have h1 : ("\">").data = ("\"").data ++ (">").data := rfl
    rw [anchorContentUncat, anchorContentCat, h1]
    simp [iconAttrL, List.append_assoc]

theorem claim_C8_amended_anchor_attributes_witness :
    iconAttrL (some "i.png") = (" ICON=\"").data ++ ("i.png").data
      ++ ("\"").data :=
  (claim_C8_amended_anchor_attributes
    ⟨"1", "t", "u", some "i.png", none, "x", 0, false⟩).2.2.1
    "i.png" rfl (by decide)

set_option maxRecDepth 10000 in
/-- C8 as stated is false: this link has an icon reference present, but its
category id matches no category, so `generateBookmarkHtml` emits it in the
uncategorized folder whose anchors never carry an `ICON` attribute — the
whole output contains no `ICON` text at all. -/
theorem claim_C8_counterexample :
    (LinkItem.icon ⟨"1", "t", "u", some "i.png", none, "x", 0, false⟩).isSome
        = true ∧
    ¬ ((" ICON=").data <:+:
      genHtmlL 0 [⟨"1", "t", "u", some "i.png", none, "x", 0, false⟩] []) := by
  constructor
  · rfl
  · decide

/-! ## Line structure of the generated document -/

/-- Split a character list at newline characters (the line view of a
file; a trailing segment without a newline is the last line). -/
def splitNl : List Char → List (List Char)
  | [] => [[]]
  | c :: rest =>
    if c = nlC then [] :: splitNl rest
    else
      match splitNl rest with
      | [] => [[c]]
      | line :: more => (c :: line) :: more

theorem splitNl_ne_nil (s : List Char) : splitNl s ≠ [] := by
  induction s with
  | nil => simp [splitNl]
  | cons c rest ih =>
    by_cases h : c = nlC
    · simp [splitNl, h]
    · simp only [splitNl, if_neg h]
      cases hs : splitNl rest with
      | nil => simp
      | cons line more => simp

theorem splitNl_of_not_mem (s : List Char) (h : nlC ∉ s) : splitNl s = [s] := by
  induction s with
  | nil => rfl
  | cons c rest ih =>
    have hc : c ≠ nlC := fun he => h (he ▸ List.mem_cons_self c rest)
    have hrest : nlC ∉ rest := fun hm => h (List.mem_cons_of_mem c hm)
    simp only [splitNl, if_neg hc, ih hrest]

theorem splitNl_append (a b : List Char) (h : nlC ∉ a) :
    splitNl (a ++ nlC :: b) = a :: splitNl b := by
  induction a with
  | nil => simp [splitNl]
  | cons x xs ih =>
    have hx : x ≠ nlC := fun he => h (he ▸ List.mem_cons_self x xs)
    have hxs : nlC ∉ xs := fun hm => h (List.mem_cons_of_mem x hm)
    simp only [List.cons_append, splitNl, if_neg hx]
    rw [show xs.append (nlC :: b) = xs ++ nlC :: b from rfl, ih hxs]

theorem lineJoin_nil : lineJoin [] = [] := rfl

theorem lineJoin_cons (l : List Char) (ls : List (List Char)) :
    lineJoin (l :: ls) = l ++ nlC :: lineJoin ls := by
  simp [lineJoin]

theorem lineJoin_append (a b : List (List Char)) :
    lineJoin (a ++ b) = lineJoin a ++ lineJoin b := by
  simp [lineJoin]

theorem lineJoin_flatten (Ls : List (List (List Char))) :
    lineJoin Ls.flatten = (Ls.map lineJoin).flatten := by
  induction Ls with
  | nil => rfl
  | cons l ls ih => simp [lineJoin_append, ih]

/-- Splitting a line-joined document recovers the lines (plus the trailing
newline-free segment), provided no line contains a newline. -/
theorem splitNl_lineJoin (lines : List (List Char)) (last : List Char)
    (hlines : ∀ l ∈ lines, nlC ∉ l) (hlast : nlC ∉ last) :
    splitNl (lineJoin lines ++ last) = lines ++ [last] := by
  induction lines with
  | nil => simpa [lineJoin_nil] using splitNl_of_not_mem last hlast
  | cons l ls ih =>
    rw [lineJoin_cons]
    have h1 : l ++ nlC :: lineJoin ls ++ last =
        l ++ nlC :: (lineJoin ls ++ last) := by simp
    rw [h1, splitNl_append _ _ (hlines l (List.mem_cons_self l ls)),
      ih (fun x hx => hlines x (List.mem_cons_of_mem l hx))]
    rfl

/-- The generated category folder, line by line. -/
def catFolderLines (now : Nat) (links : List LinkItem) (cat : Category) :
    List (List Char) :=
  [h3Content now cat.name, dlOpenContent]
    ++ (mapGetD (linksByCat links) cat.id).map anchorContentCat
    ++ [dlCloseContent]

/-- The generated uncategorized block, line by line. -/
def uncatLines (now : Nat) (links : List LinkItem) (cats : List Category) :
    List (List Char) :=
  if (uncategorizedLinks links cats).length > 0 then
    [h3Content now uncatName, dlOpenContent]
      ++ (uncategorizedLinks links cats).map anchorContentUncat
      ++ [dlCloseContent]
  else []

/-- All lines of the generated document (the closing `</DL><p>` is the
trailing newline-free segment, not one of these). -/
def genLines (now : Nat) (links : List LinkItem) (cats : List Category) :
    List (List Char) :=
  headerLines ++ (cats.map (catFolderLines now links)).flatten
    ++ uncatLines now links cats

theorem catFolderL_eq_lineJoin (now : Nat) (links : List LinkItem)
    (cat : Category) :
    catFolderL now links cat = lineJoin (catFolderLines now links cat) := by
  simp [catFolderL, catFolderLines, lineJoin, List.map_map, Function.comp_def]

theorem uncatPartL_eq_lineJoin (now : Nat) (links : List LinkItem)
    (cats : List Category) :
    uncatPartL now links cats = lineJoin (uncatLines now links cats) := by
  rw [uncatPartL, uncatLines]
  by_cases h : (uncategorizedLinks links cats).length > 0
  · rw [if_pos h, if_pos h]
    simp [lineJoin, List.map_map, Function.comp_def]
  · rw [if_neg h, if_neg h, lineJoin_nil]

theorem genHtmlL_eq_lineJoin (now : Nat) (links : List LinkItem)
    (cats : List Category) :
    genHtmlL now links cats =
      lineJoin (genLines now links cats) ++ ("</DL><p>").data := by
  rw [genHtmlL, genLines, lineJoin_append, lineJoin_append, headerL,
    lineJoin_flatten, uncatPartL_eq_lineJoin]
  have hmap : (cats.map (catFolderLines now links)).map lineJoin =
      cats.map (catFolderL now links) := by
    rw [List.map_map]
    apply List.map_congr_left
    intro c _
    exact (catFolderL_eq_lineJoin now links c).symm
  rw [hmap]

/-! ## Export-safety conditions

The generator embeds URLs and icon references verbatim and leaves newlines
in titles and names untouched, so the round trip only holds for inputs that
do not break the attribute quoting or the line structure. -/

/-- An icon reference that does not break the anchor markup: no newline and
no `>`. -/
def iconSafe : Option String → Prop
  | none => True
  | some ic => nlC ∉ ic.data ∧ '>' ∉ ic.data

instance (icon : Option String) : Decidable (iconSafe icon) :=
  match icon with
  | none => isTrue trivial
  | some ic => inferInstanceAs (Decidable (nlC ∉ ic.data ∧ '>' ∉ ic.data))

/-- A link whose anchor line survives the round trip: title without
newline, URL without newline or double quote, safe icon. -/
def LinkExportSafe (l : LinkItem) : Prop :=
  nlC ∉ l.title.data ∧ nlC ∉ l.url.data ∧ '"' ∉ l.url.data ∧ iconSafe l.icon

instance (l : LinkItem) : Decidable (LinkExportSafe l) :=
  inferInstanceAs (Decidable (_ ∧ _ ∧ _ ∧ _))

/-- An icon reference without a newline. -/
def iconNlFree : Option String → Prop
  | none => True
  | some ic => nlC ∉ ic.data

instance (icon : Option String) : Decidable (iconNlFree icon) :=
  match icon with
  | none => isTrue trivial
  | some ic => inferInstanceAs (Decidable (nlC ∉ ic.data))

/-- A link whose fields contain no newline, so that its anchor stays on one
line (weaker than `LinkExportSafe`). -/
def LinkNlFree (l : LinkItem) : Prop :=
  nlC ∉ l.title.data ∧ nlC ∉ l.url.data ∧ iconNlFree l.icon

instance (l : LinkItem) : Decidable (LinkNlFree l) :=
  inferInstanceAs (Decidable (_ ∧ _ ∧ _))

theorem LinkExportSafe.nlFree {l : LinkItem} (h : LinkExportSafe l) :
    LinkNlFree l := by
  refine ⟨h.1, h.2.1, ?_⟩
  have hi := h.2.2.2
  cases hic : l.icon with
  | none => trivial
  | some ic =>
    rw [hic] at hi
    exact hi.1

/-- A category whose heading line survives the round trip: name without
newline. -/
def CatExportSafe (c : Category) : Prop := nlC ∉ c.name.data

instance (c : Category) : Decidable (CatExportSafe c) :=
  inferInstanceAs (Decidable (nlC ∉ c.name.data))

theorem all_bne_of_not_mem {c : Char} {s : List Char} (h : c ∉ s) :
    s.all (fun x => x != c) = true := by
  rw [List.all_eq_true]
  intro x hx
  rw [bne_iff_ne]
  intro he
  exact h (he ▸ hx)

theorem natDigits_not_mem (n : Nat) (t : Char) (ht : t.isDigit = false) :
    t ∉ natDigits n := by
  intro hm
  have hd := natDigits_isDigit n t hm
  rw [hd] at ht
  exact absurd ht (by decide)

theorem natDigits_all_ne (n : Nat) (t : Char) (ht : t.isDigit = false) :
    (natDigits n).all (fun x => x != t) = true :=
  all_bne_of_not_mem (natDigits_not_mem n t ht)

theorem iconAttrL_no_nl (icon : Option String) (h : iconNlFree icon) :
    nlC ∉ iconAttrL icon := by
  cases icon with
  | none => simp [iconAttrL]
  | some ic =>
    by_cases he : ic = ""
    · simp [iconAttrL, he]
    · intro hm
      simp only [iconAttrL, if_neg he, List.append_assoc, List.mem_append] at hm
      rcases hm with h1 | h2 | h3
      · revert h1; decide
      · exact h h2
      · revert h3; decide

theorem h3Content_no_nl (now : Nat) (name : String) (h : nlC ∉ name.data) :
    nlC ∉ h3Content now name := by
  intro hm
  simp only [h3Content, List.append_assoc, List.mem_append] at hm
  rcases hm with h1 | h2 | h3 | h4 | h5 | h6 | h7
  · revert h1; decide
  · exact natDigits_not_mem now nlC (by decide) h2
  · revert h3; decide
  · exact natDigits_not_mem now nlC (by decide) h4
  · revert h5; decide
  · exact escapeHtmlL_no_nl name.data h h6
  · revert h7; decide

theorem anchorContentCat_no_nl (l : LinkItem) (h : LinkNlFree l) :
    nlC ∉ anchorContentCat l := by
  intro hm
  simp only [anchorContentCat, List.append_assoc, List.mem_append] at hm
  rcases hm with h1 | h2 | h3 | h4 | h5 | h6 | h7 | h8 | h9
  · revert h1; decide
  · exact h.2.1 h2
  · revert h3; decide
  · exact natDigits_not_mem _ nlC (by decide) h4
  · revert h5; decide
  · exact iconAttrL_no_nl l.icon h.2.2 h6
  · revert h7; decide
  · exact escapeHtmlL_no_nl l.title.data h.1 h8
  · revert h9; decide

theorem anchorContentUncat_no_nl (l : LinkItem) (h : LinkNlFree l) :
    nlC ∉ anchorContentUncat l := by
  intro hm
  simp only [anchorContentUncat, List.append_assoc, List.mem_append] at hm
  rcases hm with h1 | h2 | h3 | h4 | h5 | h6 | h7
  · revert h1; decide
  · exact h.2.1 h2
  · revert h3; decide
  · exact natDigits_not_mem _ nlC (by decide) h4
  · revert h5; decide
  · exact escapeHtmlL_no_nl l.title.data h.1 h6
  · revert h7; decide

theorem genLines_no_nl (now : Nat) (links : List LinkItem)
    (cats : List Category) (hl : ∀ l ∈ links, LinkNlFree l)
    (hc : ∀ c ∈ cats, CatExportSafe c) :
    ∀ line ∈ genLines now links cats, nlC ∉ line := by
  intro line hline
  rw [genLines] at hline
  simp only [List.append_assoc, List.mem_append] at hline
  rcases hline with h1 | h2 | h3
  · revert h1
    have : ∀ l ∈ headerLines, nlC ∉ l := by decide
    intro h1
    exact this line h1
  · rw [List.mem_flatten] at h2
    obtain ⟨fl, hfl, hmem⟩ := h2
    obtain ⟨c, hcm, rfl⟩ := List.mem_map.mp hfl
    rw [catFolderLines] at hmem
    simp only [List.append_assoc, List.mem_append, List.mem_cons,
      List.mem_singleton, List.not_mem_nil, or_false] at hmem
    rcases hmem with (rfl | rfl) | hmem | rfl
    · exact h3Content_no_nl now c.name (hc c hcm)
    · decide
    · obtain ⟨lk, hlk, rfl⟩ := List.mem_map.mp hmem
      have hlk2 : lk ∈ links := by
        have := hlk
        rw [mapGetD_linksByCat] at this
        exact List.mem_of_mem_filter this
      exact anchorContentCat_no_nl lk (hl lk hlk2)
    · decide
  · rw [uncatLines] at h3
    by_cases hb : (uncategorizedLinks links cats).length > 0
    · rw [if_pos hb] at h3
      simp only [List.append_assoc, List.mem_append, List.mem_cons,
        List.mem_singleton, List.not_mem_nil, or_false] at h3
      rcases h3 with (rfl | rfl) | hmem | rfl
      · exact h3Content_no_nl now uncatName (by decide)
      · decide
      · obtain ⟨lk, hlk, rfl⟩ := List.mem_map.mp hmem
        have hlk2 : lk ∈ links := List.mem_of_mem_filter hlk
        exact anchorContentUncat_no_nl lk (hl lk hlk2)
      · decide
    · rw [if_neg hb] at h3
      exact absurd h3 (List.not_mem_nil line)

/-- Under the export-safety conditions, splitting the generated document on
newlines recovers exactly the generated lines plus the closing tag. -/
theorem splitNl_genHtmlL (now : Nat) (links : List LinkItem)
    (cats : List Category) (hl : ∀ l ∈ links, LinkNlFree l)
    (hc : ∀ c ∈ cats, CatExportSafe c) :
    splitNl (genHtmlL now links cats) =
      genLines now links cats ++ [("</DL><p>").data] := by
  rw [genHtmlL_eq_lineJoin]
  exact splitNl_lineJoin _ _ (genLines_no_nl now links cats hl hc) (by decide)

/-! ## The bookmark parser -/

/-- One parsed bookmark entry: the folder heading under which the anchor
appeared, and the anchor's decoded title and raw URL. -/
structure ParsedLink where
  folder : List Char
  title : List Char
  url : List Char
deriving DecidableEq, Repr

/-- Modelled from the spec: `parseBookmarks`
(src/services/bookmarkParser.ts) is consumed by the app but its source is
not in the repository snapshot.  Spec §4.2: given an uploaded HTML file it
returns the links and categories extracted from the folder structure.  We
model it as a line-based parser of the Netscape format the exporter writes:
a `<DT><H3 …>name</H3>` line opens a folder with the entity-decoded name, a
`<DT><A HREF="url" …>title</A>` line records a link (raw URL up to the
closing quote, entity-decoded title) under the current folder, and every
other line is ignored.  This function handles one line, returning the new
current folder and the parsed entry, if any. -/
def parseLine (cur : List Char) (line : List Char) :
    List Char × Option ParsedLink :=
  let t := line.dropWhile (fun c => c == ' ')
  if (("<DT><H3").data).isPrefixOf t then
    let afterTag := ((t.drop 7).dropWhile (fun c => c != '>')).drop 1
    let name := afterTag.takeWhile (fun c => c != '<')
    (unescapeHtml name, none)
  else if (("<DT><A HREF=\"").data).isPrefixOf t then
    let afterHref := t.drop 13
    let url := afterHref.takeWhile (fun c => c != '"')
    let rest2 := (afterHref.dropWhile (fun c => c != '"')).drop 1
    let text := ((rest2.dropWhile (fun c => c != '>')).drop 1).takeWhile
      (fun c => c != '<')
    (cur, some ⟨cur, unescapeHtml text, url⟩)
  else (cur, none)

/-- Modelled from the spec: fold `parseLine` over the lines, accumulating
parsed entries in order. -/
def parseLinesAux : List Char → List (List Char) → List ParsedLink
  | _, [] => []
  | cur, line :: rest =>
    match parseLine cur line with
    | (cur2, none) => parseLinesAux cur2 rest
    | (cur2, some e) => e :: parseLinesAux cur2 rest

/-- The folder state after processing a list of lines. -/
def parseCur : List Char → List (List Char) → List Char
  | cur, [] => cur
  | cur, line :: rest => parseCur (parseLine cur line).1 rest

/-- Modelled from the spec: `parseBookmarks` on a whole document — split
into lines and fold the line parser, starting outside any folder. -/
def parseBookmarksL (html : List Char) : List ParsedLink :=
  parseLinesAux [] (splitNl html)

/-- `parseBookmarks` at `String` level. -/
def parseBookmarks (html : String) : List ParsedLink :=
  parseBookmarksL html.data

theorem parseLinesAux_append (cur : List Char) (a b : List (List Char)) :
    parseLinesAux cur (a ++ b) =
      parseLinesAux cur a ++ parseLinesAux (parseCur cur a) b := by
  induction a generalizing cur with
  | nil => simp [parseLinesAux, parseCur]
  | cons line rest ih =>
    simp only [List.cons_append, parseLinesAux, parseCur]
    rcases hp : parseLine cur line with ⟨cur2, e⟩
    cases e <;> simp [hp, ih]

/-! ## Classifying generated lines under the parser -/

theorem isPrefixOf_append {p a : List Char} (b : List Char)
    (h : p.isPrefixOf a = true) : p.isPrefixOf (a ++ b) = true := by
  rw [List.isPrefixOf_iff_prefix] at h ⊢
  exact h.trans (List.prefix_append a b)

theorem isPrefixOf_append_eq_of_le {p a : List Char} (b : List Char)
    (hle : p.length ≤ a.length) :
    p.isPrefixOf (a ++ b) = p.isPrefixOf a := by
  by_cases h : p.isPrefixOf a = true
  · rw [h]; exact isPrefixOf_append b h
  · rw [Bool.not_eq_true] at h
    rw [h]
    rw [Bool.eq_false_iff]
    intro hc
    rw [List.isPrefixOf_iff_prefix, List.prefix_iff_eq_take,
      List.take_append_eq_append_take, Nat.sub_eq_zero_of_le hle,
      List.take_zero, List.append_nil] at hc
    have : p.isPrefixOf a = true := by
      rw [List.isPrefixOf_iff_prefix, List.prefix_iff_eq_take]
      exact hc
    rw [h] at this
    exact Bool.false_ne_true this

theorem escapeHtmlL_all_ne_lt (s : List Char) :
    (escapeHtmlL s).all (fun c => c != '<') = true :=
  all_bne_of_not_mem (escapeHtmlL_no_lt s)

theorem iconAttrL_all_ne_gt (icon : Option String) (h : iconSafe icon) :
    (iconAttrL icon).all (fun c => c != '>') = true := by
  cases icon with
  | none => simp [iconAttrL]
  | some ic =>
    by_cases he : ic = ""
    · simp [iconAttrL, he]
    · rw [iconAttrL, if_neg he]
      simp only [List.all_append, Bool.and_eq_true]
      exact ⟨⟨by decide, all_bne_of_not_mem h.2⟩, by decide⟩

/-- The parser leaves the state unchanged and produces nothing on each of
the fixed header lines and on the `<DL>`-structure lines. -/
theorem parseLine_noop (cur : List Char) :
    (∀ line ∈ headerLines, parseLine cur line = (cur, none)) ∧
    parseLine cur dlOpenContent = (cur, none) ∧
    parseLine cur dlCloseContent = (cur, none) ∧
    parseLine cur (("</DL><p>").data) = (cur, none) := by
  refine ⟨?_, rfl, rfl, rfl⟩
  intro line hline
  rw [headerLines] at hline
  simp only [List.mem_cons, List.not_mem_nil, or_false] at hline
  rcases hline with rfl | rfl | rfl | rfl | rfl | rfl | rfl | rfl <;> rfl

/-- The parser reads a generated folder-heading line as: set the current
folder to the entity-decoded — hence original — category name. -/
theorem parseLine_h3 (cur : List Char) (now : Nat) (name : String) :
    parseLine cur (h3Content now name) = (name.data, none) := by
  have h1 : (h3Content now name).dropWhile (fun c => c == ' ') =
      ("<DT><H3 ADD_DATE=\"").data ++ (natDigits now
        ++ (("\" LAST_MODIFIED=\"").data ++ (natDigits now
        ++ (("\">").data ++ (escapeHtmlL name.data ++ ("</H3>").data))))) := by
    rw [h3Content]
    simp only [List.append_assoc]
    rw [dropWhile_append_ne_nil _ _ _ (by decide)]
    rw [show (("    <DT><H3 ADD_DATE=\"").data).dropWhile (fun c => c == ' ')
      = ("<DT><H3 ADD_DATE=\"").data from by decide]
  simp only [parseLine]
  rw [h1]
  rw [if_pos (isPrefixOf_append _ (by decide))]
  have h2 : (("<DT><H3 ADD_DATE=\"").data ++ (natDigits now
      ++ (("\" LAST_MODIFIED=\"").data ++ (natDigits now
      ++ (("\">").data ++ (escapeHtmlL name.data
      ++ ("</H3>").data)))))).drop 7 =
      (" ADD_DATE=\"").data ++ (natDigits now
        ++ (("\" LAST_MODIFIED=\"").data ++ (natDigits now
        ++ (("\">").data ++ (escapeHtmlL name.data ++ ("</H3>").data))))) := by
    rw [List.drop_append_eq_append_drop]
    rw [show ((7 : Nat) - (("<DT><H3 ADD_DATE=\"").data).length) = 0 from by decide]
    rw [List.drop_zero]
    rw [show (("<DT><H3 ADD_DATE=\"").data).drop 7
      = (" ADD_DATE=\"").data from by decide]
  rw [h2]
  rw [dropWhile_append_all _ _ _ (by decide)]
  rw [dropWhile_append_all _ _ _ (natDigits_all_ne now '>' (by decide))]
  rw [dropWhile_append_all _ _ _ (by decide)]
  rw [dropWhile_append_all _ _ _ (natDigits_all_ne now '>' (by decide))]
  rw [show ("\">").data ++ (escapeHtmlL name.data ++ ("</H3>").data)
    = '"' :: ('>' :: (escapeHtmlL name.data ++ ("</H3>").data)) from rfl]
  rw [List.dropWhile_cons, if_pos (by decide)]
  rw [List.dropWhile_cons, if_neg (by decide)]
  rw [List.drop_succ_cons, List.drop_zero]
  rw [takeWhile_append_all _ _ _ (escapeHtmlL_all_ne_lt name.data)]
  rw [show (("</H3>").data).takeWhile (fun c => c != '<') = [] from by decide]
  rw [List.append_nil, unescapeHtml_escapeHtmlL]

/-- An uncategorized anchor line is the category anchor line of the same
link with the icon dropped. -/
theorem anchorContentUncat_eq_cat (l : LinkItem) :
    anchorContentUncat l = anchorContentCat { l with icon := none } := by
  have h1 : ("\">").data = ("\"").data ++ (">").data := rfl
  rw [anchorContentUncat, anchorContentCat, h1]
  simp [iconAttrL, List.append_assoc]

/-- The parser reads a generated category anchor line as: record the raw
URL and the entity-decoded — hence original — title under the current
folder. -/
theorem parseLine_anchorCat (cur : List Char) (l : LinkItem)
    (h : LinkExportSafe l) :
    parseLine cur (anchorContentCat l) =
      (cur, some ⟨cur, l.title.data, l.url.data⟩) := by
  have h1 : (anchorContentCat l).dropWhile (fun c => c == ' ') =
      ("<DT><A HREF=\"").data ++ (l.url.data
        ++ (("\" ADD_DATE=\"").data ++ (natDigits (l.createdAt / 1000)
        ++ (("\"").data ++ (iconAttrL l.icon ++ ((">").data
        ++ (escapeHtmlL l.title.data ++ ("</A>").data))))))) := by
    rw [anchorContentCat]
    simp only [List.append_assoc]
    rw [dropWhile_append_ne_nil _ _ _ (by decide)]
    rw [show (("        <DT><A HREF=\"").data).dropWhile (fun c => c == ' ')
      = ("<DT><A HREF=\"").data from by decide]
  simp only [parseLine]
  rw [h1]
  rw [if_neg (by
    rw [isPrefixOf_append_eq_of_le _ (by decide)]
    rw [show (("<DT><H3").data).isPrefixOf (("<DT><A HREF=\"").data) = false
      from by decide]
    exact Bool.false_ne_true)]
  rw [if_pos (isPrefixOf_append _ (by decide))]
  rw [show (13 : Nat) = (("<DT><A HREF=\"").data).length from rfl,
    List.drop_left]
  have hurl : (l.url.data).all (fun c => c != '"') = true :=
    all_bne_of_not_mem h.2.2.1
  rw [takeWhile_append_all _ _ _ hurl]
  rw [show ("\" ADD_DATE=\"").data ++ (natDigits (l.createdAt / 1000)
      ++ (("\"").data ++ (iconAttrL l.icon ++ ((">").data
      ++ (escapeHtmlL l.title.data ++ ("</A>").data)))))
    = '"' :: ((" ADD_DATE=\"").data ++ (natDigits (l.createdAt / 1000)
      ++ (("\"").data ++ (iconAttrL l.icon ++ ((">").data
      ++ (escapeHtmlL l.title.data ++ ("</A>").data)))))) from rfl]
  rw [List.takeWhile_cons, if_neg (by decide), List.append_nil]
  rw [dropWhile_append_all _ _ _ hurl]
  rw [List.dropWhile_cons, if_neg (by decide)]
  rw [List.drop_succ_cons, List.drop_zero]
  rw [dropWhile_append_all _ _ _ (by decide)]
  rw [dropWhile_append_all _ _ _
    (natDigits_all_ne (l.createdAt / 1000) '>' (by decide))]
  rw [dropWhile_append_all _ _ _ (by decide)]
  rw [dropWhile_append_all _ _ _ (iconAttrL_all_ne_gt l.icon h.2.2.2)]
  rw [show ((">").data) ++ (escapeHtmlL l.title.data ++ ("</A>").data)
    = '>' :: (escapeHtmlL l.title.data ++ ("</A>").data) from rfl]
  rw [List.dropWhile_cons, if_neg (by decide)]
  rw [List.drop_succ_cons, List.drop_zero]
  rw [takeWhile_append_all _ _ _ (escapeHtmlL_all_ne_lt l.title.data)]
  rw [show (("</A>").data).takeWhile (fun c => c != '<') = [] from by decide]
  rw [List.append_nil, unescapeHtml_escapeHtmlL]

/-- The parser reads a generated uncategorized anchor line the same way. -/
theorem parseLine_anchorUncat (cur : List Char) (l : LinkItem)
    (h : LinkExportSafe l) :
    parseLine cur (anchorContentUncat l) =
      (cur, some ⟨cur, l.title.data, l.url.data⟩) := by
  rw [anchorContentUncat_eq_cat]
  exact parseLine_anchorCat cur { l with icon := none }
    ⟨h.1, h.2.1, h.2.2.1, trivial⟩

theorem parseLinesAux_cons_noop (cur : List Char) (line : List Char)
    (rest : List (List Char)) (h : parseLine cur line = (cur, none)) :
    parseLinesAux cur (line :: rest) = parseLinesAux cur rest := by
  simp [parseLinesAux, h]

theorem parseLinesAux_header (cur : List Char) (rest : List (List Char)) :
    parseLinesAux cur (headerLines ++ rest) = parseLinesAux cur rest := by
  rw [headerLines]
  simp only [List.cons_append, List.nil_append]
  iterate 8 rw [parseLinesAux_cons_noop _ _ _ rfl]

/-- Processing a run of category anchor lines records one entry per link,
all under the current folder, and leaves the folder unchanged. -/
theorem parseLinesAux_anchorsCat (cur : List Char) (ls : List LinkItem)
    (hs : ∀ l ∈ ls, LinkExportSafe l) (tail : List (List Char)) :
    parseLinesAux cur (ls.map anchorContentCat ++ tail) =
      ls.map (fun l => (⟨cur, l.title.data, l.url.data⟩ : ParsedLink))
        ++ parseLinesAux cur tail := by
  induction ls with
  | nil => simp
  | cons l ls ih =>
    simp only [List.map_cons, List.cons_append, parseLinesAux,
      parseLine_anchorCat cur l (hs l (List.mem_cons_self l ls)),
      List.append_eq]
    rw [ih (fun x hx => hs x (List.mem_cons_of_mem l hx))]

theorem parseLinesAux_anchorsUncat (cur : List Char) (ls : List LinkItem)
    (hs : ∀ l ∈ ls, LinkExportSafe l) (tail : List (List Char)) :
    parseLinesAux cur (ls.map anchorContentUncat ++ tail) =
      ls.map (fun l => (⟨cur, l.title.data, l.url.data⟩ : ParsedLink))
        ++ parseLinesAux cur tail := by
  induction ls with
  | nil => simp
  | cons l ls ih =>
    simp only [List.map_cons, List.cons_append, parseLinesAux,
      parseLine_anchorUncat cur l (hs l (List.mem_cons_self l ls)),
      List.append_eq]
    rw [ih (fun x hx => hs x (List.mem_cons_of_mem l hx))]

theorem parseLinesAux_cons_h3 (cur : List Char) (now : Nat) (name : String)
    (rest : List (List Char)) :
    parseLinesAux cur (h3Content now name :: rest) =
      parseLinesAux name.data rest := by
  simp [parseLinesAux, parseLine_h3 cur now name]

/-- Processing one generated category folder (followed by anything) yields
that folder's entries and continues with the folder name as state. -/
theorem parseLinesAux_catFolder (cur : List Char) (now : Nat)
    (links : List LinkItem) (cat : Category)
    (hs : ∀ l ∈ mapGetD (linksByCat links) cat.id, LinkExportSafe l)
    (tail : List (List Char)) :
    parseLinesAux cur (catFolderLines now links cat ++ tail) =
      (mapGetD (linksByCat links) cat.id).map
        (fun l => (⟨cat.name.data, l.title.data, l.url.data⟩ : ParsedLink))
        ++ parseLinesAux cat.name.data tail := by
  rw [catFolderLines]
  simp only [List.cons_append, List.nil_append, List.append_assoc]
  rw [parseLinesAux_cons_h3, parseLinesAux_cons_noop _ _ _ rfl,
    parseLinesAux_anchorsCat _ _ hs, parseLinesAux_cons_noop _ _ _ rfl]

/-- Processing all generated category folders before a tail whose parse
does not depend on the incoming folder state yields the per-category
entries, in category order, followed by the tail's entries. -/
theorem parseLinesAux_folderList (now : Nat) (links : List LinkItem)
    (hl : ∀ l ∈ links, LinkExportSafe l) (T : List (List Char))
    (E : List ParsedLink) (hT : ∀ cur, parseLinesAux cur T = E) :
    ∀ (cats : List Category) (cur : List Char),
      parseLinesAux cur ((cats.map (catFolderLines now links)).flatten ++ T) =
        cats.flatMap (fun c => (mapGetD (linksByCat links) c.id).map
          (fun l => (⟨c.name.data, l.title.data, l.url.data⟩ : ParsedLink)))
        ++ E := by
  intro cats
  induction cats with
  | nil =>
    intro cur
    simpa using hT cur
  | cons c cs ih =>
    intro cur
    have hsub : ∀ l ∈ mapGetD (linksByCat links) c.id, LinkExportSafe l := by
      intro l hml
      rw [mapGetD_linksByCat] at hml
      exact hl l (List.mem_of_mem_filter hml)
    simp only [List.map_cons, List.flatten_cons, List.append_assoc,
      List.flatMap_cons]
    rw [parseLinesAux_catFolder cur now links c hsub]
    rw [ih c.name.data]

/-- Processing the generated uncategorized block plus the closing tag
yields one entry per uncategorized link, under the uncategorized folder
name, regardless of the incoming folder state. -/
theorem parseLinesAux_uncatTail (now : Nat) (links : List LinkItem)
    (cats : List Category) (hl : ∀ l ∈ links, LinkExportSafe l) :
    ∀ cur : List Char,
      parseLinesAux cur (uncatLines now links cats ++ [("</DL><p>").data]) =
        (uncategorizedLinks links cats).map
          (fun l => (⟨uncatName.data, l.title.data, l.url.data⟩ : ParsedLink)) := by
  intro cur
  have hsub : ∀ l ∈ uncategorizedLinks links cats, LinkExportSafe l :=
    fun l hml => hl l (List.mem_of_mem_filter hml)
  rw [uncatLines]
  by_cases h : (uncategorizedLinks links cats).length > 0
  · rw [if_pos h]
    simp only [List.cons_append, List.nil_append, List.append_assoc]
    rw [parseLinesAux_cons_h3, parseLinesAux_cons_noop _ _ _ rfl,
      parseLinesAux_anchorsUncat _ _ hsub,
      parseLinesAux_cons_noop _ _ _ rfl, parseLinesAux_cons_noop _ _ _ rfl]
    simp [parseLinesAux]
  · rw [if_neg h]
    have hnil : uncategorizedLinks links cats = [] := by
      rcases List.eq_nil_or_concat (uncategorizedLinks links cats) with h0 | ⟨a, b, hab⟩
      · exact h0
      · exfalso; apply h; rw [hab]; simp
    rw [hnil]
    simp only [List.nil_append, List.map_nil]
    rw [parseLinesAux_cons_noop _ _ _ rfl]
    rfl

/-- The full round trip: under the export-safety conditions, parsing the
generated document yields exactly one entry per emitted anchor — for each
category in order its grouped links under the category's name, then the
uncategorized links under the uncategorized folder name — with raw URLs
and entity-decoded titles. -/
theorem parseBookmarksL_genHtmlL (now : Nat) (links : List LinkItem)
    (cats : List Category) (hl : ∀ l ∈ links, LinkExportSafe l)
    (hc : ∀ c ∈ cats, CatExportSafe c) :
    parseBookmarksL (genHtmlL now links cats) =
      cats.flatMap (fun c => (mapGetD (linksByCat links) c.id).map
        (fun l => (⟨c.name.data, l.title.data, l.url.data⟩ : ParsedLink)))
      ++ (uncategorizedLinks links cats).map
        (fun l => (⟨uncatName.data, l.title.data, l.url.data⟩ : ParsedLink)) := by
  rw [parseBookmarksL,
    splitNl_genHtmlL now links cats (fun l hm => (hl l hm).nlFree) hc,
    genLines]
  simp only [List.append_assoc]
  rw [parseLinesAux_header]
  exact parseLinesAux_folderList now links hl _ _
    (parseLinesAux_uncatTail now links cats hl) cats []

/-- C1 (amended): for export-safe inputs — no newline in titles, URLs,
icons or category names, no double quote in URLs, no `>` in icons — parsing
the generated bookmark HTML recovers, for every link, its title, its URL,
and the name of the folder it was emitted under: the name of a category
whose id matches the link's, or the uncategorized folder name when none
does.  (Icons and descriptions are not recovered.) -/
theorem claim_C1_amended_roundtrip (now : Nat) (links : List LinkItem)
    (cats : List Category) (hl : ∀ l ∈ links, LinkExportSafe l)
    (hc : ∀ c ∈ cats, CatExportSafe c) :
    ∀ l ∈ links,
      ∃ e ∈ parseBookmarksL (genHtmlL now links cats),
        e.title = l.title.data ∧ e.url = l.url.data ∧
        ((∃ c ∈ cats, c.id = l.categoryId ∧ e.folder = c.name.data) ∨
         ((∀ c ∈ cats, c.id ≠ l.categoryId) ∧ e.folder = uncatName.data)) := by
  intro l hml
  rw [parseBookmarksL_genHtmlL now links cats hl hc]
  by_cases hex : ∃ c ∈ cats, c.id = l.categoryId
  · obtain ⟨c, hcm, hcid⟩ := hex
    refine ⟨⟨c.name.data, l.title.data, l.url.data⟩, ?_, rfl, rfl,
      Or.inl ⟨c, hcm, hcid, rfl⟩⟩
    apply List.mem_append_left
    rw [List.mem_flatMap]
    refine ⟨c, hcm, ?_⟩
    rw [List.mem_map]
    refine ⟨l, ?_, rfl⟩
    rw [mapGetD_linksByCat]
    exact List.mem_filter.mpr ⟨hml, beq_iff_eq.mpr hcid.symm⟩
  · push_neg at hex
    refine ⟨⟨uncatName.data, l.title.data, l.url.data⟩, ?_, rfl, rfl,
      Or.inr ⟨hex, rfl⟩⟩
    apply List.mem_append_right
    rw [List.mem_map]
    refine ⟨l, ?_, rfl⟩
    apply List.mem_filter.mpr
    refine ⟨hml, ?_⟩
    rw [Bool.not_eq_true', List.any_eq_false]
    intro c hcm habs
    exact hex c hcm (beq_iff_eq.mp habs)

theorem claim_C1_amended_roundtrip_witness :
    ∃ e ∈ parseBookmarksL (genHtmlL 7
        [⟨"1", "A&B", "https://x", none, none, "dev", 1500, false⟩]
        [⟨"dev", "Dev", "Code", none⟩]),
      e.title = ("A&B").data ∧ e.url = ("https://x").data ∧
      ((∃ c ∈ [(⟨"dev", "Dev", "Code", none⟩ : Category)],
          c.id = "dev" ∧ e.folder = c.name.data) ∨
       ((∀ c ∈ [(⟨"dev", "Dev", "Code", none⟩ : Category)], c.id ≠ "dev") ∧
        e.folder = uncatName.data)) :=
  claim_C1_amended_roundtrip 7
    [⟨"1", "A&B", "https://x", none, none, "dev", 1500, false⟩]
    [⟨"dev", "Dev", "Code", none⟩] (by decide) (by decide)
    ⟨"1", "A&B", "https://x", none, none, "dev", 1500, false⟩ (by decide)

/-- The link whose URL contains a double quote, used to refute C1 as
universally stated. -/
def c1BadLink : LinkItem := ⟨"1", "t", "u\"v", none, none, "dev", 0, false⟩

def c1Cat : Category := ⟨"dev", "Dev", "Code", none⟩

/-- The anchor line the generator emits for `c1BadLink`: the unescaped URL
quote closes the `HREF` attribute early. -/
def c1BadLine : List Char :=
  ("        <DT><A HREF=\"u\"v\" ADD_DATE=\"0\">t</A>").data

set_option maxRecDepth 10000 in
/-- C1 as universally stated is false: URLs are embedded verbatim, so a URL
containing a double quote truncates at the quote under any HTML
attribute parse — the only parsed entry has URL `u`, not `u"v`. -/
theorem claim_C1_counterexample :
    parseBookmarksL (genHtmlL 0 [c1BadLink] [c1Cat]) =
      [⟨("Dev").data, ("t").data, ("u").data⟩] ∧
    ("u").data ≠ ("u\"v").data := by
  have hpl : ∀ cur : List Char, parseLine cur c1BadLine =
      (cur, some ⟨cur, unescapeHtml (("t").data), ("u").data⟩) := by
    intro cur
    simp only [parseLine, c1BadLine]
    rw [if_neg (by decide :
      ¬ ((("<DT><H3").data).isPrefixOf
        ((("        <DT><A HREF=\"u\"v\" ADD_DATE=\"0\">t</A>").data).dropWhile
          (fun c => c == ' ')) = true))]
    rw [if_pos (by decide :
      ((("<DT><A HREF=\"").data).isPrefixOf
        ((("        <DT><A HREF=\"u\"v\" ADD_DATE=\"0\">t</A>").data).dropWhile
          (fun c => c == ' ')) = true))]
    simp only [Prod.mk.injEq, Option.some.injEq, ParsedLink.mk.injEq]
    exact ⟨trivial, trivial, congrArg unescapeHtml (by decide), by decide⟩
  have ht : unescapeHtml (("t").data) = ("t").data := by
    have h := unescapeHtml_escapeHtmlL (("t").data)
    rw [show escapeHtmlL (("t").data) = ("t").data from by decide] at h
    exact h
  constructor
  · have hnl : ∀ l ∈ [c1BadLink], LinkNlFree l := by decide
    have hcs : ∀ c ∈ [c1Cat], CatExportSafe c := by decide
    rw [parseBookmarksL, splitNl_genHtmlL 0 _ _ hnl hcs]
    rw [genLines]
    rw [show uncatLines 0 [c1BadLink] [c1Cat] = [] from by
      rw [uncatLines,
        show uncategorizedLinks [c1BadLink] [c1Cat] = [] from by decide]
      rfl]
    rw [show ([c1Cat].map (catFolderLines 0 [c1BadLink])).flatten =
      catFolderLines 0 [c1BadLink] c1Cat from by simp]
    rw [show catFolderLines 0 [c1BadLink] c1Cat =
        [h3Content 0 "Dev", dlOpenContent, anchorContentCat c1BadLink,
         dlCloseContent] from by
      rw [catFolderLines,
        show mapGetD (linksByCat [c1BadLink]) c1Cat.id = [c1BadLink] from by
          decide]
      rfl]
    rw [show anchorContentCat c1BadLink = c1BadLine from by decide]
    simp only [List.append_nil, List.append_assoc, List.cons_append,
      List.nil_append]
    rw [parseLinesAux_header]
    rw [parseLinesAux_cons_h3]
    rw [parseLinesAux_cons_noop _ _ _ rfl]
    have e1 : ∀ cur : List Char, parseLine cur dlCloseContent = (cur, none) :=
      fun _ => rfl
    have e2 : ∀ cur : List Char,
        parseLine cur (("</DL><p>").data) = (cur, none) := fun _ => rfl
    simp only [parseLinesAux, hpl, e1, e2]
    rw [ht]
  · decide
